import Mathlib

/-!
# MediChain patient portal: model normalisation, overlay geometry, patient store

Shallow embedding of

* `src/Frontend/src/pages/PatientPortal.jsx` : the `useEffect` body of `HumanModel`
  (target selection, bounding-box guard, scale and recentre) and the overlay
  geometry of `PatientPortal` (`centerPx`, `cardPx`, the connector path);
* `src/Frontend/src/Store/PatientStore.jsx` : the three store actions.

JavaScript numbers are IEEE-754 binary64 values.  They are embedded as `JsNum`:
`NaN`, the two infinities, and finite values `(-1)^neg * m * 2^e`.  Every
arithmetic operation computes the exact result and rounds it once, to nearest,
ties to even, as the language requires.
-/

set_option maxRecDepth 100000
set_option exponentiation.threshold 4096

namespace MediChain

/-! ## JavaScript numbers -/

/-- A JavaScript number: `NaN`, `±Infinity`, or the finite value `(-1)^neg * m * 2^e`.
The binary64 values are those with `m < 2^53`, `-1074 ≤ e ≤ 971`, and
`2^52 ≤ m` unless `e = -1074` (see `JsNum.IsDouble`). -/
inductive JsNum where
  | nan : JsNum
  | inf (neg : Bool) : JsNum
  | fin (neg : Bool) (m : Nat) (e : Int) : JsNum
deriving DecidableEq, Repr

namespace JsNum

/-- Floor of the base-two logarithm, by repeated halving (`fuel` bounds the number of halvings). -/
def log2F : Nat → Nat → Nat
  | 0, _ => 0
  | fuel + 1, n => if n < 2 then 0 else log2F fuel (n / 2) + 1

/-- Nearest integer to `N / D`, ties to the even neighbour. -/
def rne (N D : Nat) : Nat :=
  if 2 * (N % D) < D then N / D
  else if D < 2 * (N % D) then N / D + 1
  else if (N / D) % 2 = 0 then N / D else N / D + 1

/-- The integer `k` with `2^k ≤ n / d < 2^(k+1)`, for `n, d > 0`. -/
def floorLog2 (n d : Nat) : Int :=
  let k : Int := (log2F n n : Int) - (log2F d d : Int)
  if 0 ≤ k then (if d * 2 ^ k.toNat ≤ n then k else k - 1)
  else (if d ≤ n * 2 ^ (-k).toNat then k else k - 1)

/-- Final step of rounding: renormalise a significand that rounded up to `2^53`,
and overflow to infinity beyond the largest exponent. -/
def pack (neg : Bool) (M : Nat) (t : Int) : JsNum :=
  if M = 2 ^ 53 then (if 971 < t + 1 then inf neg else fin neg (2 ^ 52) (t + 1))
  else if 971 < t then inf neg else fin neg M t

/-- Round the exact value `(-1)^neg * (n / d) * 2^x` to binary64
(round to nearest, ties to even; gradual underflow; overflow to infinity). -/
def roundQ (neg : Bool) (n d : Nat) (x : Int) : JsNum :=
  if n = 0 then fin neg 0 (-1074)
  else
    let t : Int := max (floorLog2 n d + x - 52) (-1074)
    let M : Nat :=
      if t ≤ x then rne (n * 2 ^ (x - t).toNat) d else rne n (d * 2 ^ (t - x).toNat)
    pack neg M t

/-- The number denoted by the decimal literal `n / d` (`1.9` is `lit 19 10`). -/
def lit (n d : Nat) : JsNum := roundQ false n d 0

/-- Unary minus. -/
def neg : JsNum → JsNum
  | nan => nan
  | inf s => inf (!s)
  | fin s m e => fin (!s) m e

/-- The operator `*`. -/
def mul : JsNum → JsNum → JsNum
  | nan, _ => nan
  | _, nan => nan
  | inf s, inf t => inf (xor s t)
  | inf s, fin t m _ => if m = 0 then nan else inf (xor s t)
  | fin s m _, inf t => if m = 0 then nan else inf (xor s t)
  | fin s m e, fin t n f => roundQ (xor s t) (m * n) 1 (e + f)

/-- The operator `/`. -/
def div : JsNum → JsNum → JsNum
  | nan, _ => nan
  | _, nan => nan
  | inf _, inf _ => nan
  | inf s, fin t _ _ => inf (xor s t)
  | fin s _ _, inf t => fin (xor s t) 0 (-1074)
  | fin s m e, fin t n f =>
      if n = 0 then (if m = 0 then nan else inf (xor s t))
      else roundQ (xor s t) m n (e - f)

/-- A signed integer from sign and magnitude. -/
def sint (s : Bool) (m : Nat) : Int := if s then -(m : Int) else (m : Int)

/-- The operator `+`. -/
def add : JsNum → JsNum → JsNum
  | nan, _ => nan
  | _, nan => nan
  | inf s, inf t => if s = t then inf s else nan
  | inf s, fin _ _ _ => inf s
  | fin _ _ _, inf t => inf t
  | fin s m e, fin t n f =>
      let g : Int := min e f
      let z : Int := sint s (m * 2 ^ (e - g).toNat) + sint t (n * 2 ^ (f - g).toNat)
      if z = 0 then fin (s && t) 0 (-1074)
      else roundQ (decide (z < 0)) z.natAbs 1 g

/-- The operator `-`. -/
def sub (a b : JsNum) : JsNum := add a (neg b)

/-- The global `isFinite` on a number. -/
def isFinite : JsNum → Bool
  | fin _ _ _ => true
  | _ => false

/-- The comparison `a === 0` (true for both zeros, false for `NaN`). -/
def isZero : JsNum → Bool
  | fin _ m _ => decide (m = 0)
  | _ => false

/-- The comparison `a === b` on numbers: `NaN` equals nothing, the two zeros are equal. -/
def strictEq : JsNum → JsNum → Bool
  | nan, _ => false
  | _, nan => false
  | inf s, inf t => decide (s = t)
  | fin s m e, fin t n f => (decide (m = 0) && decide (n = 0)) || decide (fin s m e = fin t n f)
  | _, _ => false

/-- The exact rational value of a finite number (`0` for the non-finite ones). -/
def toRat : JsNum → ℚ
  | fin s m e => (if s then -1 else 1) * (m : ℚ) * (2 : ℚ) ^ e
  | _ => 0

/-- The finite number is strictly positive. -/
def isPos : JsNum → Bool
  | fin s m _ => !s && decide (m ≠ 0)
  | _ => false

/-- The value is one of the binary64 values (canonical significand and exponent range). -/
def IsDouble : JsNum → Prop
  | fin _ m e => m < 2 ^ 53 ∧ -1074 ≤ e ∧ e ≤ 971 ∧ (2 ^ 52 ≤ m ∨ e = -1074)
  | _ => True

instance (a : JsNum) : Decidable (IsDouble a) := by
  cases a <;> unfold IsDouble <;> infer_instance

/-- The sign factor of a sign bit. -/
def sg (b : Bool) : ℚ := if b then -1 else 1

/-- The rounding error allowed on an exact result `v`: half an ulp, or half the
subnormal spacing. -/
def ulpErr (v : ℚ) : ℚ := |v| * (2 : ℚ) ^ (-53 : ℤ) + (2 : ℚ) ^ (-1075 : ℤ)

end JsNum

open JsNum

/-! ## `HumanModel`: scale and recentre -/

/-- A `THREE.Vector3`. -/
structure Vector3 where
  x : JsNum
  y : JsNum
  z : JsNum
deriving DecidableEq, Repr

/-- The two transform fields of the scene root that the effect writes. -/
structure RootTransform where
  scale : Vector3
  position : Vector3
deriving DecidableEq, Repr

/-- The constant `TARGET = 1.9`. -/
def TARGET : JsNum := lit 19 10

/-- The method `Vector3.setScalar`. -/
def setScalar (s : JsNum) : Vector3 := ⟨s, s, s⟩

/-- The effect body of `HumanModel` from the bounding-box guard onwards
(`PatientPortal.jsx` lines 102-126): `size` and `center` are what
`bbox.getSize` and `bbox.getCenter` returned for the selected target. -/
def normalize (root : RootTransform) (size center : Vector3) : RootTransform :=
  if isZero size.y || !isFinite size.y then root
  else
    let scale := div TARGET size.y
    let root1 : RootTransform := { root with scale := setScalar scale }
    let root2 : RootTransform := { root1 with position :=
      ⟨mul (neg center.x) scale,
       sub (add (mul (neg center.y) scale) (div TARGET (lit 2 1))) (lit 1 10),
       mul (neg center.z) scale⟩ }
    { root2 with position :=
      ⟨mul (neg center.x) scale,
       sub (add (mul (neg center.y) scale) (div TARGET (lit 2 1))) (lit 105 100),
       mul (neg center.z) scale⟩ }

/-! ## `HumanModel`: target selection -/

/-- The node classes the effect distinguishes (`THREE.SkinnedMesh`, `THREE.Mesh`,
`THREE.Bone`, and every other `Object3D` such as `Group`). -/
inductive Kind where
  | skinnedMesh
  | mesh
  | bone
  | group
deriving DecidableEq, Repr

/-- A scene-graph node: its class, its `name`, and its `children`. -/
inductive Object3D where
  | node (kind : Kind) (name : String) (children : List Object3D) : Object3D

namespace Object3D

/-- The class of a node. -/
def kind : Object3D → Kind
  | node k _ _ => k

/-- The `name` property. -/
def name : Object3D → String
  | node _ n _ => n

/-- The `children` property. -/
def children : Object3D → List Object3D
  | node _ _ cs => cs

/-- The flag `isSkinnedMesh`. -/
def isSkinnedMesh (o : Object3D) : Bool := o.kind = Kind.skinnedMesh

/-- The flag `isMesh`; `SkinnedMesh` extends `Mesh`, so it carries the flag too. -/
def isMesh (o : Object3D) : Bool := o.kind = Kind.mesh || o.kind = Kind.skinnedMesh

/-- A mesh that is not skinned. -/
def isPlainMesh (o : Object3D) : Bool := o.kind = Kind.mesh

mutual
/-- The method `Object3D.traverse`, threading the variables the callback assigns as a state:
the callback runs on the node itself, then on each child subtree in order. -/
def traverse {σ : Type} (cb : σ → Object3D → σ) : σ → Object3D → σ
  | s, node k n cs => traverseChildren cb (cb s (node k n cs)) cs
/-- The loop of `traverse` over the children. -/
def traverseChildren {σ : Type} (cb : σ → Object3D → σ) : σ → List Object3D → σ
  | s, [] => s
  | s, c :: cs => traverseChildren cb (traverse cb s c) cs
end

mutual
/-- The method `Object3D.getObjectByName`: the node itself when its name matches, otherwise
the first match among the child subtrees, `none` (JavaScript `undefined`) when there is none. -/
def getObjectByName (nm : String) : Object3D → Option Object3D
  | node k n cs => if n = nm then some (node k n cs) else getObjectByNameChildren nm cs
/-- The loop of `getObjectByName` over the children. -/
def getObjectByNameChildren (nm : String) : List Object3D → Option Object3D
  | [] => none
  | c :: cs =>
    match getObjectByName nm c with
    | some o => some o
    | none => getObjectByNameChildren nm cs
end

mutual
/-- The nodes of the graph in pre-order (a node before its subtrees, children left to right). -/
def preorder : Object3D → List Object3D
  | node k n cs => node k n cs :: preorderChildren cs
/-- Pre-order listing of a forest. -/
def preorderChildren : List Object3D → List Object3D
  | [] => []
  | c :: cs => preorder c ++ preorderChildren cs
end

end Object3D

open Object3D

/-- The target selection of the effect (`PatientPortal.jsx` lines 71-95). -/
def selectTarget (root : Object3D) : Object3D :=
  let target : Option Object3D :=
    traverse (fun t obj => if t.isNone && obj.isSkinnedMesh then some obj else t) none root
  let target : Option Object3D :=
    if target.isNone then getObjectByName "mixamorigHips" root else target
  let target : Option Object3D :=
    if target.isNone then
      traverse (fun t obj => if t.isNone && obj.isMesh then some obj else t) target root
    else target
  match target with
  | none => root
  | some t => t

/-- The whole effect of `HumanModel` for a loaded scene: `bboxOf` stands for
`new THREE.Box3().setFromObject(target)` followed by `getSize` and `getCenter`. -/
def HumanModel (bboxOf : Object3D → Vector3 × Vector3) (scene : Object3D)
    (root : RootTransform) : RootTransform :=
  let target := selectTarget scene
  normalize root (bboxOf target).1 (bboxOf target).2

/-! ## `usePatientStore` -/

/-- A plain JavaScript object with string keys, as the list of its own properties in
enumeration order. -/
abbrev Record (α : Type) := List (String × α)

/-- Property read `r[f]` (`none` is `undefined`). -/
def Record.get {α : Type} (r : Record α) (f : String) : Option α :=
  (r.find? (fun kv => kv.1 = f)).map (fun kv => kv.2)

/-- The key is an own property. -/
def Record.hasKey {α : Type} (r : Record α) (f : String) : Bool :=
  r.any (fun kv => kv.1 = f)

/-- The array index a key denotes, when it is the canonical decimal form of an integer
between `0` and `2^32 - 2`; such keys are enumerated first, in ascending order. -/
def arrayIndex? (k : String) : Option Nat :=
  match k.toNat? with
  | some n => if n ≤ 4294967294 ∧ toString n = k then some n else none
  | none => none

/-- Assignment to an existing own property: the value changes, the position does not. -/
def Record.overwrite {α : Type} : Record α → String → α → Record α
  | [], _, _ => []
  | (k, w) :: rest, f, v =>
    if k = f then (k, v) :: rest else (k, w) :: Record.overwrite rest f v

/-- Creation of a new own property: an array-index key goes before the first key that is
not an array index or is a larger one, any other key goes last. -/
def Record.insertNew {α : Type} : Record α → String → α → Record α
  | [], f, v => [(f, v)]
  | (k, w) :: rest, f, v =>
    match arrayIndex? f, arrayIndex? k with
    | some i, some j =>
      if j < i then (k, w) :: Record.insertNew rest f v else (f, v) :: (k, w) :: rest
    | some _, none => (f, v) :: (k, w) :: rest
    | none, _ => (k, w) :: Record.insertNew rest f v

/-- Property definition `[f]: v` in an object literal. -/
def Record.setKey {α : Type} (r : Record α) (f : String) (v : α) : Record α :=
  if r.hasKey f then r.overwrite f v else r.insertNew f v

/-- Object spread `{...d}`: the own properties of a record in their order, nothing for
`null`. -/
def spread {α : Type} : Option (Record α) → Record α
  | none => []
  | some r => r

/-- The store state: `patientData` (`none` is `null`) and the `error` key that
`clearPatientData` creates (`none`: key absent, `some none`: `null`). -/
structure StoreState (α : Type) where
  patientData : Option (Record α)
  error : Option (Option String)

/-- The initial state passed to `create`. -/
def usePatientStore (α : Type) : StoreState α := { patientData := none, error := none }

/-- The action `setPatientData`. -/
def setPatientData {α : Type} (data : Option (Record α)) (state : StoreState α) : StoreState α :=
  { state with patientData := data }

/-- The action `updatePatientField`. -/
def updatePatientField {α : Type} (field : String) (value : α) (state : StoreState α) :
    StoreState α :=
  { state with patientData := some ((spread state.patientData).setKey field value) }

/-- The action `clearPatientData`. -/
def clearPatientData {α : Type} (state : StoreState α) : StoreState α :=
  { state with patientData := none, error := some none }

/-- A store whose record holds two fields, `a = 1` and `b = 2`. -/
def sampleStore : StoreState Nat := { patientData := some [("a", 1), ("b", 2)], error := none }

/-- The callback of a `traverse` call that keeps the first node satisfying `p`. -/
def firstCb (p : Object3D → Bool) (t : Option Object3D) (obj : Object3D) : Option Object3D :=
  if t.isNone && p obj then some obj else t

/-- A small scene used to instantiate the selection theorem: a group holding a bone
and one plain mesh. -/
def sampleScene : Object3D :=
  node Kind.group "Scene" [node Kind.bone "Spine" [], node Kind.mesh "Body" []]

/-- A scene that consists of one plain mesh and nothing else. -/
def meshOnlyScene : Object3D := node Kind.mesh "Body" []

/-- A scene whose node named `mixamorigHips` is a group, not a bone. -/
def namedGroupScene : Object3D :=
  node Kind.group "Scene" [node Kind.group "mixamorigHips" [], node Kind.mesh "Body" []]

/-! ## Overlay geometry -/

/-- The measured container rectangle held in the `rect` state. -/
structure Rect where
  width : JsNum
  height : JsNum
  left : JsNum
  top : JsNum
deriving DecidableEq, Repr

/-- A pixel position `{ x, y }`. -/
structure Point where
  x : JsNum
  y : JsNum
deriving DecidableEq, Repr

/-- An entry of `cardPositions`. -/
structure Anchor where
  id : String
  leftP : JsNum
  topP : JsNum
deriving DecidableEq, Repr

/-- The table `cardPositions`. -/
def cardPositions : List Anchor :=
  [⟨"head", lit 50 1, lit 8 1⟩, ⟨"chest", lit 72 1, lit 40 1⟩,
   ⟨"shoulder", lit 18 1, lit 40 1⟩, ⟨"knee", lit 50 1, lit 78 1⟩]

/-- The constant `centerPx` of a render with the given `rect`. -/
def centerPx (rect : Rect) : Point :=
  ⟨div rect.width (lit 2 1), div rect.height (lit 2 1)⟩

/-- The function `cardPx` of a render with the given `rect`. -/
def cardPx (rect : Rect) (pos : Anchor) : Point :=
  ⟨mul (div pos.leftP (lit 100 1)) rect.width, mul (div pos.topP (lit 100 1)) rect.height⟩

/-- The path data `M start Q control stop` of a connector. -/
structure QuadPath where
  start : Point
  control : Point
  stop : Point
deriving DecidableEq, Repr

/-- The quadratic curve drawn between two points in the `cardPositions.map` callback:
`midX`, `midY` and the three points of `d`. -/
def quadBetween (c p : Point) : QuadPath :=
  let midX := div (add c.x p.x) (lit 2 1)
  let midY := sub (div (add c.y p.y) (lit 2 1)) (lit 30 1)
  ⟨c, ⟨midX, midY⟩, p⟩

/-- The connector drawn for one anchor (`PatientPortal.jsx` lines 274-281). -/
def connectorPath (rect : Rect) (pos : Anchor) : QuadPath :=
  let p := cardPx rect pos
  quadBetween (centerPx rect) p

/-- Three points lie on one line (exact arithmetic on their coordinates). -/
def Collinear (a b c : Point) : Prop :=
  (toRat b.x - toRat a.x) * (toRat c.y - toRat a.y)
    = (toRat b.y - toRat a.y) * (toRat c.x - toRat a.x)

/-- The anchor of the head card, first entry of `cardPositions`. -/
def headAnchor : Anchor := ⟨"head", lit 50 1, lit 8 1⟩

/-- A rectangle of the given size at the origin. -/
def rectOfSize (w h : Nat) : Rect := ⟨lit w 1, lit h 1, lit 0 1, lit 0 1⟩

/-- The point with the given non-negative integer coordinates. -/
def pt (x y : Nat) : Point := ⟨lit x 1, lit y 1⟩

/-! ## Sample inputs -/

/-- The smallest positive number, `5e-324`. -/
def minSubnormal : JsNum := fin false 1 (-1074)

/-- The identity transform a freshly loaded scene carries: scale `(1, 1, 1)`, position
`(0, 0, 0)`. -/
def identityTransform : RootTransform :=
  ⟨⟨lit 1 1, lit 1 1, lit 1 1⟩, ⟨lit 0 1, lit 0 1, lit 0 1⟩⟩

/-! ## Rounding: error bounds and algebraic identities -/

namespace JsNum

theorem log2F_spec : ∀ (fuel n : Nat), 0 < n → n ≤ fuel →
    2 ^ log2F fuel n ≤ n ∧ n < 2 ^ (log2F fuel n + 1)
  | 0, n, hn, hf => by omega
  | fuel + 1, n, hn, hf => by
    unfold log2F
    by_cases h : n < 2
    · rw [if_pos h]
      constructor
      · simpa using hn
      · simpa using h
    · rw [if_neg h]
      have hd : 0 < n / 2 := Nat.div_pos (by omega) (by decide)
      have hle : n / 2 ≤ fuel := by omega
      obtain ⟨h1, h2⟩ := log2F_spec fuel (n / 2) hd hle
      constructor
      · rw [Nat.pow_succ]; omega
      · rw [Nat.pow_succ]; omega

theorem rne_bounds (N D : Nat) (hD : 0 < D) :
    2 * (rne N D * D) ≤ 2 * N + D ∧ 2 * N ≤ 2 * (rne N D * D) + D := by
  have hdm := Nat.div_add_mod N D
  have hlt := Nat.mod_lt N hD
  have hq : N / D * D = D * (N / D) := Nat.mul_comm _ _
  unfold rne
  split_ifs with h1 h2 h3
  · constructor <;> omega
  · rw [Nat.add_mul]; constructor <;> omega
  · constructor <;> omega
  · rw [Nat.add_mul]; constructor <;> omega

theorem rne_err (N D : Nat) (hD : 0 < D) :
    |(rne N D : ℚ) - (N : ℚ) / (D : ℚ)| ≤ 1 / 2 := by
  obtain ⟨h1, h2⟩ := rne_bounds N D hD
  have hDq : (0 : ℚ) < D := by exact_mod_cast hD
  have h1q : (2 : ℚ) * ((rne N D : ℚ) * D) ≤ 2 * N + D := by exact_mod_cast h1
  have h2q : (2 : ℚ) * N ≤ 2 * ((rne N D : ℚ) * D) + D := by exact_mod_cast h2
  have hND : (N : ℚ) / D * D = N := div_mul_cancel₀ _ (ne_of_gt hDq)
  rw [abs_le]
  constructor
  · have : (-(1 / 2) : ℚ) * D ≤ ((rne N D : ℚ) - (N : ℚ) / D) * D := by
      rw [sub_mul, hND]; linarith
    exact le_of_mul_le_mul_right this hDq
  · have : ((rne N D : ℚ) - (N : ℚ) / D) * D ≤ (1 / 2 : ℚ) * D := by
      rw [sub_mul, hND]; linarith
    exact le_of_mul_le_mul_right this hDq

theorem floorLog2_spec (n d : Nat) (hn : 0 < n) (hd : 0 < d) :
    (2 : ℚ) ^ (floorLog2 n d) * d ≤ n ∧ (n : ℚ) < (2 : ℚ) ^ (floorLog2 n d + 1) * d := by
  obtain ⟨ha1, ha2⟩ := log2F_spec n n hn le_rfl
  obtain ⟨hb1, hb2⟩ := log2F_spec d d hd le_rfl
  have h2 : (2 : ℚ) ≠ 0 := two_ne_zero
  have hA1 : (2 : ℚ) ^ ((log2F n n : ℕ) : ℤ) ≤ n := by
    rw [zpow_natCast]; exact_mod_cast ha1
  have hA2 : (n : ℚ) < 2 * (2 : ℚ) ^ ((log2F n n : ℕ) : ℤ) := by
    rw [zpow_natCast]
    have : n < 2 * 2 ^ log2F n n := by rw [Nat.pow_succ] at ha2; omega
    exact_mod_cast this
  have hB1 : (2 : ℚ) ^ ((log2F d d : ℕ) : ℤ) ≤ d := by
    rw [zpow_natCast]; exact_mod_cast hb1
  have hB2 : (d : ℚ) < 2 * (2 : ℚ) ^ ((log2F d d : ℕ) : ℤ) := by
    rw [zpow_natCast]
    have : d < 2 * 2 ^ log2F d d := by rw [Nat.pow_succ] at hb2; omega
    exact_mod_cast this
  generalize hk : ((log2F n n : ℕ) : ℤ) - ((log2F d d : ℕ) : ℤ) = k
  have hP : (0 : ℚ) < (2 : ℚ) ^ k := zpow_pos (by norm_num) k
  have hPB : (2 : ℚ) ^ k * (2 : ℚ) ^ ((log2F d d : ℕ) : ℤ) = (2 : ℚ) ^ ((log2F n n : ℕ) : ℤ) := by
    rw [← zpow_add₀ h2]; congr 1; omega
  have hdq : (0 : ℚ) < d := by exact_mod_cast hd
  -- the comparison made by the code is `d * 2^k ≤ n`
  have hchk : floorLog2 n d = if (d : ℚ) * (2 : ℚ) ^ k ≤ n then k else k - 1 := by
    unfold floorLog2
    simp only [hk]
    by_cases h0 : 0 ≤ k
    · rw [if_pos h0]
      have hc : (d * 2 ^ k.toNat ≤ n) ↔ ((d : ℚ) * (2 : ℚ) ^ k ≤ n) := by
        have : (2 : ℚ) ^ k = ((2 ^ k.toNat : ℕ) : ℚ) := by
          rw [Nat.cast_pow, ← zpow_natCast, Int.toNat_of_nonneg h0]; rfl
        rw [this]
        exact_mod_cast Iff.rfl
      by_cases hcc : d * 2 ^ k.toNat ≤ n
      · rw [if_pos hcc, if_pos (hc.mp hcc)]
      · rw [if_neg hcc, if_neg (fun h => hcc (hc.mpr h))]
    · rw [if_neg h0]
      have hneg : 0 ≤ -k := by omega
      have hc : (d ≤ n * 2 ^ (-k).toNat) ↔ ((d : ℚ) * (2 : ℚ) ^ k ≤ n) := by
        have h1 : ((2 ^ (-k).toNat : ℕ) : ℚ) = (2 : ℚ) ^ (-k) := by
          rw [Nat.cast_pow, ← zpow_natCast, Int.toNat_of_nonneg hneg]; rfl
        have h3 : (2 : ℚ) ^ (-k) * (2 : ℚ) ^ k = 1 := by
          rw [← zpow_add₀ h2]; simp
        have h4 : (d ≤ n * 2 ^ (-k).toNat) ↔ ((d : ℚ) ≤ n * (2 : ℚ) ^ (-k)) := by
          rw [← h1]; exact_mod_cast Iff.rfl
        rw [h4]
        constructor
        · intro h
          have := mul_le_mul_of_nonneg_right h (le_of_lt hP)
          rwa [mul_assoc, h3, mul_one] at this
        · intro h
          have hP2 : (0 : ℚ) < (2 : ℚ) ^ (-k) := zpow_pos (by norm_num) _
          have := mul_le_mul_of_nonneg_right h (le_of_lt hP2)
          rwa [mul_assoc, mul_comm ((2 : ℚ) ^ k), h3, mul_one] at this
      by_cases hcc : d ≤ n * 2 ^ (-k).toNat
      · rw [if_pos hcc, if_pos (hc.mp hcc)]
      · rw [if_neg hcc, if_neg (fun h => hcc (hc.mpr h))]
  rw [hchk]
  by_cases hc : (d : ℚ) * (2 : ℚ) ^ k ≤ n
  · rw [if_pos hc, zpow_add_one₀ h2]
    constructor
    · linarith
    · nlinarith [mul_le_mul_of_nonneg_left hB1 (le_of_lt hP)]
  · rw [if_neg hc]
    have hsub : k - 1 + 1 = k := by ring
    rw [hsub, zpow_sub_one₀ h2]
    push_neg at hc
    constructor
    · nlinarith [mul_lt_mul_of_pos_left hB2 hP]
    · linarith

theorem pack_spec (neg : Bool) (M : Nat) (t : Int) (ht : t ≤ 970) :
    ∃ m e, pack neg M t = fin neg m e ∧ (m : ℚ) * (2 : ℚ) ^ e = (M : ℚ) * (2 : ℚ) ^ t := by
  unfold pack
  by_cases hM : M = 2 ^ 53
  · rw [if_pos hM, if_neg (by omega)]
    refine ⟨2 ^ 52, t + 1, rfl, ?_⟩
    rw [hM, zpow_add_one₀ (two_ne_zero)]
    push_cast
    ring
  · rw [if_neg hM, if_neg (by omega)]
    exact ⟨M, t, rfl, rfl⟩

theorem roundQ_spec (neg : Bool) (n d : Nat) (x : Int) (hn : 0 < n) (hd : 0 < d)
    (hv : (n : ℚ) / d * (2 : ℚ) ^ x < (2 : ℚ) ^ (1023 : ℤ)) :
    ∃ m e, roundQ neg n d x = fin neg m e ∧
      |(m : ℚ) * (2 : ℚ) ^ e - (n : ℚ) / d * (2 : ℚ) ^ x|
        ≤ (n : ℚ) / d * (2 : ℚ) ^ x * (2 : ℚ) ^ (-53 : ℤ) + (2 : ℚ) ^ (-1075 : ℤ) := by
  have h2 : (2 : ℚ) ≠ 0 := two_ne_zero
  have hdq : (0 : ℚ) < d := by exact_mod_cast hd
  have hnq : (0 : ℚ) < n := by exact_mod_cast hn
  obtain ⟨hlo, hhi⟩ := floorLog2_spec n d hn hd
  have hx : (0 : ℚ) < (2 : ℚ) ^ x := zpow_pos (by norm_num) x
  -- `2 ^ (fl + x) ≤ v`
  have hlo2 : (2 : ℚ) ^ (floorLog2 n d + x) ≤ (n : ℚ) / d * (2 : ℚ) ^ x := by
    rw [zpow_add₀ h2]
    apply mul_le_mul_of_nonneg_right _ (le_of_lt hx)
    rw [le_div_iff₀ hdq]; exact hlo
  have hvpos : (0 : ℚ) < (n : ℚ) / d * (2 : ℚ) ^ x := mul_pos (div_pos hnq hdq) hx
  have hfl : floorLog2 n d + x < 1023 := by
    by_contra hcon
    push_neg at hcon
    have := zpow_le_zpow_right₀ (by norm_num : (1 : ℚ) ≤ 2) hcon
    linarith
  unfold roundQ
  rw [if_neg (by omega)]
  simp only []
  generalize ht : max (floorLog2 n d + x - 52) (-1074) = t
  have ht970 : t ≤ 970 := by
    rw [← ht]; exact max_le (by omega) (by norm_num)
  have hT : (0 : ℚ) < (2 : ℚ) ^ t := zpow_pos (by norm_num) t
  -- the significand is within one half of `v / 2^t`
  have hM : ∀ M : Nat,
      M = (if t ≤ x then rne (n * 2 ^ (x - t).toNat) d else rne n (d * 2 ^ (t - x).toNat)) →
      |(M : ℚ) - (n : ℚ) / d * (2 : ℚ) ^ x * (2 : ℚ) ^ (-t)| ≤ 1 / 2 := by
    intro M hMdef
    by_cases htx : t ≤ x
    · rw [if_pos htx] at hMdef
      have hk : ((2 ^ (x - t).toNat : ℕ) : ℚ) = (2 : ℚ) ^ (x - t) := by
        rw [Nat.cast_pow, ← zpow_natCast, Int.toNat_of_nonneg (by omega)]; rfl
      have := rne_err (n * 2 ^ (x - t).toNat) d hd
      rw [← hMdef, Nat.cast_mul, hk] at this
      have he : (n : ℚ) / d * (2 : ℚ) ^ x * (2 : ℚ) ^ (-t) = (n : ℚ) * (2 : ℚ) ^ (x - t) / d := by
        rw [sub_eq_add_neg, zpow_add₀ h2]; ring
      rw [he]; exact this
    · rw [if_neg htx] at hMdef
      have hk : ((2 ^ (t - x).toNat : ℕ) : ℚ) = (2 : ℚ) ^ (t - x) := by
        rw [Nat.cast_pow, ← zpow_natCast, Int.toNat_of_nonneg (by omega)]; rfl
      have hDpos : 0 < d * 2 ^ (t - x).toNat := Nat.mul_pos hd (Nat.pow_pos (by decide))
      have := rne_err n (d * 2 ^ (t - x).toNat) hDpos
      rw [← hMdef, Nat.cast_mul, hk] at this
      have he : (n : ℚ) / d * (2 : ℚ) ^ x * (2 : ℚ) ^ (-t) = (n : ℚ) / (d * (2 : ℚ) ^ (t - x)) := by
        have h1 : (2 : ℚ) ^ (t - x) = (2 : ℚ) ^ t * ((2 : ℚ) ^ x)⁻¹ := by
          rw [sub_eq_add_neg, zpow_add₀ h2, zpow_neg]
        rw [h1, zpow_neg]
        field_simp
      rw [he]; exact this
  obtain ⟨m, e, hpk, hval⟩ := pack_spec neg
    (if t ≤ x then rne (n * 2 ^ (x - t).toNat) d else rne n (d * 2 ^ (t - x).toNat)) t ht970
  refine ⟨m, e, hpk, ?_⟩
  rw [hval]
  have hMe := hM _ rfl
  generalize (if t ≤ x then rne (n * 2 ^ (x - t).toNat) d else rne n (d * 2 ^ (t - x).toNat)) = M
    at hMe
  generalize hvdef : (n : ℚ) / d * (2 : ℚ) ^ x = v at *
  -- scale the significand error by `2^t`
  have hscale : |(M : ℚ) * (2 : ℚ) ^ t - v| ≤ (2 : ℚ) ^ t / 2 := by
    have h1 : (M : ℚ) * (2 : ℚ) ^ t - v = ((M : ℚ) - v * (2 : ℚ) ^ (-t)) * (2 : ℚ) ^ t := by
      rw [sub_mul, mul_assoc, ← zpow_add₀ h2]; simp
    rw [h1, abs_mul, abs_of_pos hT]
    calc |(M : ℚ) - v * (2 : ℚ) ^ (-t)| * (2 : ℚ) ^ t ≤ 1 / 2 * (2 : ℚ) ^ t :=
          mul_le_mul_of_nonneg_right hMe (le_of_lt hT)
      _ = (2 : ℚ) ^ t / 2 := by ring
  -- half an ulp is within the stated bound
  have hulp : (2 : ℚ) ^ t / 2 ≤ v * (2 : ℚ) ^ (-53 : ℤ) + (2 : ℚ) ^ (-1075 : ℤ) := by
    have h53 : (0 : ℚ) < (2 : ℚ) ^ (-53 : ℤ) := zpow_pos (by norm_num) _
    have h1075 : (0 : ℚ) < (2 : ℚ) ^ (-1075 : ℤ) := zpow_pos (by norm_num) _
    rcases max_choice (floorLog2 n d + x - 52) (-1074) with hc | hc
    · rw [hc] at ht
      have h3 : (2 : ℚ) ^ t / 2 = (2 : ℚ) ^ (floorLog2 n d + x) * (2 : ℚ) ^ (-53 : ℤ) := by
        rw [← ht, ← zpow_add₀ h2, div_eq_iff h2, ← zpow_add_one₀ h2]
        congr 1; ring
      rw [h3]
      have := mul_le_mul_of_nonneg_right hlo2 (le_of_lt h53)
      linarith
    · rw [hc] at ht
      have h3 : (2 : ℚ) ^ t / 2 = (2 : ℚ) ^ (-1075 : ℤ) := by
        rw [← ht, div_eq_iff h2, ← zpow_add_one₀ h2]
        norm_num
      rw [h3]
      have := mul_pos hvpos h53
      linarith
  exact le_trans hscale hulp

theorem abs_sg (b : Bool) : |sg b| = 1 := by
  cases b <;> simp [sg]

theorem sg_xor (s t : Bool) : sg (xor s t) = sg s * sg t := by
  cases s <;> cases t <;> simp [sg]

theorem toRat_fin (s : Bool) (m : Nat) (e : Int) :
    toRat (fin s m e) = sg s * ((m : ℚ) * (2 : ℚ) ^ e) := by
  simp only [toRat, sg]; ring

theorem roundQ_err (neg : Bool) (n d : Nat) (x : Int) (hd : 0 < d)
    (hv : (n : ℚ) / d * (2 : ℚ) ^ x < (2 : ℚ) ^ (1023 : ℤ)) :
    isFinite (roundQ neg n d x) = true ∧
    |toRat (roundQ neg n d x) - sg neg * ((n : ℚ) / d * (2 : ℚ) ^ x)|
      ≤ (n : ℚ) / d * (2 : ℚ) ^ x * (2 : ℚ) ^ (-53 : ℤ) + (2 : ℚ) ^ (-1075 : ℤ) := by
  rcases Nat.eq_zero_or_pos n with hn | hn
  · subst hn
    have h1075 : (0 : ℚ) < (2 : ℚ) ^ (-1075 : ℤ) := zpow_pos (by norm_num) _
    simp only [roundQ, if_true, isFinite, toRat_fin, Nat.cast_zero, zero_div, zero_mul, mul_zero,
      sub_zero, abs_zero, zero_add, true_and]
    exact le_of_lt h1075
  · obtain ⟨m, e, hr, herr⟩ := roundQ_spec neg n d x hn hd hv
    rw [hr]
    refine ⟨rfl, ?_⟩
    rw [toRat_fin, ← mul_sub, abs_mul, abs_sg, one_mul]
    exact herr

theorem mul_err (a b : JsNum) (ha : isFinite a = true) (hb : isFinite b = true)
    (hv : |toRat a * toRat b| < (2 : ℚ) ^ (1023 : ℤ)) :
    isFinite (mul a b) = true ∧ |toRat (mul a b) - toRat a * toRat b| ≤ ulpErr (toRat a * toRat b) := by
  cases a with
  | nan => simp [isFinite] at ha
  | inf s => simp [isFinite] at ha
  | fin s m e =>
    cases b with
    | nan => simp [isFinite] at hb
    | inf t => simp [isFinite] at hb
    | fin t n f =>
      have hx : (0 : ℚ) ≤ ((m * n : ℕ) : ℚ) / (1 : ℕ) * (2 : ℚ) ^ (e + f) := by positivity
      have hval : toRat (fin s m e) * toRat (fin t n f)
          = sg (xor s t) * (((m * n : ℕ) : ℚ) / (1 : ℕ) * (2 : ℚ) ^ (e + f)) := by
        rw [toRat_fin, toRat_fin, sg_xor, zpow_add₀ (two_ne_zero)]
        push_cast
        ring
      rw [hval] at hv ⊢
      have habs : |sg (xor s t) * (((m * n : ℕ) : ℚ) / (1 : ℕ) * (2 : ℚ) ^ (e + f))|
          = ((m * n : ℕ) : ℚ) / (1 : ℕ) * (2 : ℚ) ^ (e + f) := by
        rw [abs_mul, abs_sg, one_mul, abs_of_nonneg hx]
      rw [habs] at hv
      have := roundQ_err (xor s t) (m * n) 1 (e + f) (by decide) hv
      unfold ulpErr
      rw [habs]
      exact this

theorem div_err (a b : JsNum) (ha : isFinite a = true) (hb : isFinite b = true)
    (hb0 : isZero b = false)
    (hv : |toRat a / toRat b| < (2 : ℚ) ^ (1023 : ℤ)) :
    isFinite (div a b) = true ∧ |toRat (div a b) - toRat a / toRat b| ≤ ulpErr (toRat a / toRat b) := by
  cases a with
  | nan => simp [isFinite] at ha
  | inf s => simp [isFinite] at ha
  | fin s m e =>
    cases b with
    | nan => simp [isFinite] at hb
    | inf t => simp [isFinite] at hb
    | fin t n f =>
      have hn : n ≠ 0 := by simpa [isZero] using hb0
      have hnpos : 0 < n := Nat.pos_of_ne_zero hn
      have hnq : (0 : ℚ) < n := by exact_mod_cast hnpos
      have hx : (0 : ℚ) ≤ (m : ℚ) / (n : ℚ) * (2 : ℚ) ^ (e - f) := by positivity
      have hsgt : sg t ≠ 0 := by cases t <;> simp [sg]
      have hsq : sg t * sg t = 1 := by cases t <;> simp [sg]
      have hval : toRat (fin s m e) / toRat (fin t n f)
          = sg (xor s t) * ((m : ℚ) / (n : ℚ) * (2 : ℚ) ^ (e - f)) := by
        rw [toRat_fin, toRat_fin, sg_xor, sub_eq_add_neg, zpow_add₀ (two_ne_zero), zpow_neg]
        have hf : (2 : ℚ) ^ f ≠ 0 := zpow_ne_zero _ two_ne_zero
        field_simp
        ring_nf
        rw [show sg t ^ 2 = 1 by rw [pow_two]; exact hsq]
        ring
      rw [hval] at hv ⊢
      have habs : |sg (xor s t) * ((m : ℚ) / (n : ℚ) * (2 : ℚ) ^ (e - f))|
          = (m : ℚ) / (n : ℚ) * (2 : ℚ) ^ (e - f) := by
        rw [abs_mul, abs_sg, one_mul, abs_of_nonneg hx]
      rw [habs] at hv
      have := roundQ_err (xor s t) m n (e - f) hnpos hv
      unfold ulpErr
      rw [habs]
      simp only [div, if_neg hn]
      exact this

theorem sint_cast (s : Bool) (m : Nat) : ((sint s m : ℤ) : ℚ) = sg s * (m : ℚ) := by
  cases s <;> simp [sint, sg]

theorem add_err (a b : JsNum) (ha : isFinite a = true) (hb : isFinite b = true)
    (hv : |toRat a + toRat b| < (2 : ℚ) ^ (1023 : ℤ)) :
    isFinite (add a b) = true ∧ |toRat (add a b) - (toRat a + toRat b)| ≤ ulpErr (toRat a + toRat b) := by
  cases a with
  | nan => simp [isFinite] at ha
  | inf s => simp [isFinite] at ha
  | fin s m e =>
    cases b with
    | nan => simp [isFinite] at hb
    | inf t => simp [isFinite] at hb
    | fin t n f =>
      have h2 : (2 : ℚ) ≠ 0 := two_ne_zero
      have hpow : ∀ u : ℤ, min e f ≤ u →
          ((2 ^ (u - min e f).toNat : ℕ) : ℚ) * (2 : ℚ) ^ (min e f) = (2 : ℚ) ^ u := by
        intro u hu
        rw [Nat.cast_pow, ← zpow_natCast, Int.toNat_of_nonneg (by omega)]
        push_cast
        rw [← zpow_add₀ h2]; congr 1; ring
      generalize hz : sint s (m * 2 ^ (e - min e f).toNat) + sint t (n * 2 ^ (f - min e f).toNat) = z
      have hval : toRat (fin s m e) + toRat (fin t n f) = (z : ℚ) * (2 : ℚ) ^ (min e f) := by
        rw [← hz, Int.cast_add, sint_cast, sint_cast, toRat_fin, toRat_fin, Nat.cast_mul,
          Nat.cast_mul, add_mul, mul_assoc, mul_assoc, mul_assoc, mul_assoc,
          hpow e (min_le_left _ _), hpow f (min_le_right _ _)]
      have hadd : add (fin s m e) (fin t n f)
          = if z = 0 then fin (s && t) 0 (-1074) else roundQ (decide (z < 0)) z.natAbs 1 (min e f) := by
        simp only [add, hz]
      rw [hval] at hv
      rw [hadd, hval]
      have h1075 : (0 : ℚ) < (2 : ℚ) ^ (-1075 : ℤ) := zpow_pos (by norm_num) _
      by_cases hz0 : z = 0
      · rw [if_pos hz0, hz0]
        simp only [isFinite, toRat_fin, Nat.cast_zero, zero_mul, mul_zero, Int.cast_zero,
          sub_zero, abs_zero, true_and, ulpErr, zero_add]
        exact le_of_lt h1075
      · rw [if_neg hz0]
        have hg : (0 : ℚ) < (2 : ℚ) ^ (min e f) := zpow_pos (by norm_num) _
        have habsz : ((z.natAbs : ℕ) : ℚ) = |(z : ℚ)| := by
          rw [Nat.cast_natAbs, Int.cast_abs]
        have hsgz : sg (decide (z < 0)) * ((z.natAbs : ℕ) : ℚ) = (z : ℚ) := by
          rw [habsz]
          by_cases hneg : z < 0
          · have hq : (z : ℚ) < 0 := by exact_mod_cast hneg
            rw [abs_of_neg hq]
            simp [sg, hneg]
          · have hq : (0 : ℚ) ≤ (z : ℚ) := by exact_mod_cast (not_lt.mp hneg)
            rw [abs_of_nonneg hq]
            simp [sg, hneg]
        have hx : ((z.natAbs : ℕ) : ℚ) / ((1 : ℕ) : ℚ) * (2 : ℚ) ^ (min e f)
            = |(z : ℚ) * (2 : ℚ) ^ (min e f)| := by
          rw [abs_mul, abs_of_pos hg, habsz]; simp
        have hv2 : ((z.natAbs : ℕ) : ℚ) / ((1 : ℕ) : ℚ) * (2 : ℚ) ^ (min e f) < (2 : ℚ) ^ (1023 : ℤ) := by
          rw [hx]; exact hv
        have := roundQ_err (decide (z < 0)) z.natAbs 1 (min e f) (by decide) hv2
        refine ⟨this.1, ?_⟩
        have h3 : sg (decide (z < 0)) * (((z.natAbs : ℕ) : ℚ) / ((1 : ℕ) : ℚ) * (2 : ℚ) ^ (min e f))
            = (z : ℚ) * (2 : ℚ) ^ (min e f) := by
          rw [Nat.cast_one, div_one, ← mul_assoc, hsgz]
        rw [h3, hx] at this
        exact this.2

theorem toRat_neg (a : JsNum) : toRat (neg a) = -toRat a := by
  cases a with
  | nan => simp [neg, toRat]
  | inf s => simp [neg, toRat]
  | fin s m e => cases s <;> simp [neg, toRat]

theorem isFinite_neg (a : JsNum) : isFinite (neg a) = isFinite a := by
  cases a <;> rfl

theorem sub_err (a b : JsNum) (ha : isFinite a = true) (hb : isFinite b = true)
    (hv : |toRat a - toRat b| < (2 : ℚ) ^ (1023 : ℤ)) :
    isFinite (sub a b) = true ∧ |toRat (sub a b) - (toRat a - toRat b)| ≤ ulpErr (toRat a - toRat b) := by
  have hb2 : isFinite (neg b) = true := by rw [isFinite_neg]; exact hb
  have := add_err a (neg b) ha hb2 (by rw [toRat_neg, ← sub_eq_add_neg]; exact hv)
  rw [toRat_neg, ← sub_eq_add_neg] at this
  exact this

theorem pack_neg (b : Bool) (M : Nat) (t : Int) : pack (!b) M t = neg (pack b M t) := by
  unfold pack
  split_ifs <;> rfl

theorem roundQ_neg (b : Bool) (n d : Nat) (x : Int) :
    roundQ (!b) n d x = neg (roundQ b n d x) := by
  unfold roundQ
  split_ifs
  · rfl
  · simp only [pack_neg]

theorem mul_swap (a b : JsNum) : mul a b = mul b a := by
  cases a <;> cases b <;> simp [mul, Bool.xor_comm, Nat.mul_comm, Int.add_comm]

theorem mul_neg_left (a b : JsNum) : mul (neg a) b = neg (mul a b) := by
  cases a with
  | nan => cases b <;> rfl
  | inf s => 
    cases b with
    | nan => rfl
    | inf t => cases s <;> cases t <;> rfl
    | fin t n f =>
      simp only [neg, mul]
      split_ifs <;> cases s <;> cases t <;> rfl
  | fin s m e =>
    cases b with
    | nan => rfl
    | inf t =>
      simp only [neg, mul]
      split_ifs <;> cases s <;> cases t <;> rfl
    | fin t n f =>
      have hx : xor (!s) t = !(xor s t) := by cases s <;> cases t <;> rfl
      show roundQ (xor (!s) t) (m * n) 1 (e + f) = neg (roundQ (xor s t) (m * n) 1 (e + f))
      rw [hx, roundQ_neg]

theorem add_neg_same (a : JsNum) (ha : isFinite a = true) :
    add a (neg a) = fin false 0 (-1074) := by
  cases a with
  | nan => simp [isFinite] at ha
  | inf s => simp [isFinite] at ha
  | fin s m e =>
    have hz : sint s (m * 2 ^ (e - min e e).toNat) + sint (!s) (m * 2 ^ (e - min e e).toNat) = 0 := by
      cases s <;> simp [sint]
    simp only [neg, add, hz, if_true]
    cases s <;> rfl

end JsNum

/-! ## Target selection: proofs -/

theorem foldl_firstCb_some (p : Object3D → Bool) (l : List Object3D) (o : Object3D) :
    l.foldl (firstCb p) (some o) = some o := by
  induction l with
  | nil => rfl
  | cons a l ih => simpa [List.foldl, firstCb] using ih

theorem foldl_firstCb_none (p : Object3D → Bool) (l : List Object3D) :
    l.foldl (firstCb p) none = l.find? p := by
  induction l with
  | nil => rfl
  | cons a l ih =>
    by_cases h : p a = true
    · simp [List.foldl, firstCb, h, foldl_firstCb_some, List.find?]
    · simp only [Bool.not_eq_true] at h
      simp [List.foldl, firstCb, h, ih, List.find?]

mutual
theorem traverse_eq_foldl {σ : Type} (cb : σ → Object3D → σ) :
    ∀ (o : Object3D) (s : σ), traverse cb s o = (preorder o).foldl cb s
  | node k n cs, s => by
    rw [Object3D.traverse, preorder, List.foldl_cons]
    exact traverseChildren_eq_foldl cb cs _
theorem traverseChildren_eq_foldl {σ : Type} (cb : σ → Object3D → σ) :
    ∀ (cs : List Object3D) (s : σ), traverseChildren cb s cs = (preorderChildren cs).foldl cb s
  | [], s => by rw [traverseChildren, preorderChildren]; rfl
  | c :: cs, s => by
    rw [traverseChildren, preorderChildren, List.foldl_append, traverse_eq_foldl cb c s]
    exact traverseChildren_eq_foldl cb cs _
end

mutual
theorem getObjectByName_eq_find (nm : String) :
    ∀ o : Object3D, getObjectByName nm o = (preorder o).find? (fun x => x.name = nm)
  | node k n cs => by
    rw [getObjectByName, preorder]
    by_cases h : n = nm
    · simp [h, List.find?, Object3D.name]
    · simp [h, List.find?, Object3D.name, getObjectByNameChildren_eq_find nm cs]
theorem getObjectByNameChildren_eq_find (nm : String) :
    ∀ cs : List Object3D,
      getObjectByNameChildren nm cs = (preorderChildren cs).find? (fun x => x.name = nm)
  | [] => by rw [getObjectByNameChildren, preorderChildren]; rfl
  | c :: cs => by
    rw [getObjectByNameChildren, preorderChildren, List.find?_append,
      getObjectByName_eq_find nm c, getObjectByNameChildren_eq_find nm cs]
    cases List.find? (fun x => decide (x.name = nm)) (preorder c) <;> rfl
end

theorem root_mem_preorder (o : Object3D) : o ∈ preorder o := by
  cases o with
  | node k n cs => rw [preorder]; exact List.mem_cons_self _ _

/-- The selection written with `List.find?` on the pre-order listing. -/
theorem selectTarget_eq (root : Object3D) :
    selectTarget root =
      match (preorder root).find? isSkinnedMesh with
      | some o => o
      | none =>
        match (preorder root).find? (fun x => x.name = "mixamorigHips") with
        | some o => o
        | none =>
          match (preorder root).find? isMesh with
          | some o => o
          | none => root := by
  have h1 : traverse (fun t obj => if t.isNone && obj.isSkinnedMesh then some obj else t)
      none root = (preorder root).find? isSkinnedMesh := by
    rw [traverse_eq_foldl]; exact foldl_firstCb_none isSkinnedMesh _
  have h3 : traverse (fun t obj => if t.isNone && obj.isMesh then some obj else t)
      none root = (preorder root).find? isMesh := by
    rw [traverse_eq_foldl]; exact foldl_firstCb_none isMesh _
  unfold selectTarget
  simp only [h1, getObjectByName_eq_find]
  cases hs : List.find? isSkinnedMesh (preorder root) with
  | some o => simp
  | none =>
    simp only [Option.isNone_none, if_true]
    cases hn : List.find? (fun x => decide (x.name = "mixamorigHips")) (preorder root) with
    | some o => simp
    | none =>
      simp only [Option.isNone_none, if_true, h3]
      cases List.find? isMesh (preorder root) <;> rfl

theorem find_isMesh_eq_plain (l : List Object3D)
    (h : ∀ o ∈ l, isSkinnedMesh o = false) : l.find? isMesh = l.find? isPlainMesh := by
  induction l with
  | nil => rfl
  | cons a l ih =>
    have ha : isSkinnedMesh a = false := h a (List.mem_cons_self _ _)
    have hm : isMesh a = isPlainMesh a := by
      unfold isMesh isPlainMesh
      unfold isSkinnedMesh at ha
      rw [ha, Bool.or_false]
    simp only [List.find?, hm]
    rw [ih (fun o ho => h o (List.mem_cons_of_mem _ ho))]

theorem find_eq_head_filter (p : Object3D → Bool) (l : List Object3D) :
    l.find? p = (l.filter p).head? := by
  induction l with
  | nil => rfl
  | cons a l ih =>
    cases h : p a with
    | true => rw [List.find?_cons_of_pos _ h, List.filter_cons_of_pos h]; rfl
    | false =>
      rw [List.find?_cons_of_neg _ (by simp [h]), List.filter_cons_of_neg (by simp [h])]
      exact ih

/-! ## Patient store: proofs -/

theorem get_overwrite_self {α : Type} (r : Record α) (f : String) (v : α)
    (h : r.hasKey f = true) : (r.overwrite f v).get f = some v := by
  induction r with
  | nil => simp [Record.hasKey] at h
  | cons kv rest ih =>
    obtain ⟨k, w⟩ := kv
    by_cases hk : k = f
    · simp [Record.overwrite, Record.get, hk]
    · have hrest : Record.hasKey rest f = true := by
        simpa [Record.hasKey, hk] using h
      simpa [Record.overwrite, Record.get, hk] using ih hrest

theorem get_overwrite_other {α : Type} (r : Record α) (f g : String) (v : α) (h : g ≠ f) :
    (r.overwrite f v).get g = r.get g := by
  induction r with
  | nil => rfl
  | cons kv rest ih =>
    obtain ⟨k, w⟩ := kv
    by_cases hk : k = f
    · subst hk
      simp [Record.overwrite, Record.get, Ne.symm h]
    · by_cases hg : k = g
      · subst hg
        simp [Record.overwrite, Record.get, hk]
      · simpa [Record.overwrite, Record.get, hk, hg] using ih

theorem get_insertNew_self {α : Type} (r : Record α) (f : String) (v : α)
    (h : r.hasKey f = false) : (r.insertNew f v).get f = some v := by
  induction r with
  | nil => simp [Record.insertNew, Record.get]
  | cons kv rest ih =>
    obtain ⟨k, w⟩ := kv
    have hk : k ≠ f := by
      intro hkf
      simp [Record.hasKey, hkf] at h
    have hrest : Record.hasKey rest f = false := by
      simpa [Record.hasKey, hk] using h
    have hstep : Record.get ((k, w) :: Record.insertNew rest f v) f = some v := by
      simpa [Record.get, hk] using ih hrest
    have hhere : Record.get ((f, v) :: (k, w) :: rest) f = some v := by
      simp [Record.get]
    unfold Record.insertNew
    split
    · split_ifs
      · exact hstep
      · exact hhere
    · exact hhere
    · exact hstep

theorem get_insertNew_other {α : Type} (r : Record α) (f g : String) (v : α) (h : g ≠ f) :
    (r.insertNew f v).get g = r.get g := by
  induction r with
  | nil => simp [Record.insertNew, Record.get, Ne.symm h]
  | cons kv rest ih =>
    obtain ⟨k, w⟩ := kv
    have hstep : Record.get ((k, w) :: Record.insertNew rest f v) g
        = Record.get ((k, w) :: rest) g := by
      by_cases hg : k = g
      · subst hg
        simp [Record.get]
      · simpa [Record.get, hg] using ih
    have hhere : Record.get ((f, v) :: (k, w) :: rest) g = Record.get ((k, w) :: rest) g := by
      simp [Record.get, Ne.symm h]
    unfold Record.insertNew
    split
    · split_ifs
      · exact hstep
      · exact hhere
    · exact hhere
    · exact hstep

theorem get_setKey_self {α : Type} (r : Record α) (f : String) (v : α) :
    (r.setKey f v).get f = some v := by
  unfold Record.setKey
  cases h : r.hasKey f with
  | true => simpa using get_overwrite_self r f v h
  | false => simpa using get_insertNew_self r f v h

theorem get_setKey_other {α : Type} (r : Record α) (f g : String) (v : α) (h : g ≠ f) :
    (r.setKey f v).get g = r.get g := by
  unfold Record.setKey
  split_ifs
  · exact get_overwrite_other r f g v h
  · exact get_insertNew_other r f g v h

/-! ## Claims on target selection -/

/-- Counterexample to C4 as stated: the scene made of a single plain mesh has no skinned
mesh, no node named `mixamorigHips` and exactly one plain mesh, and its target is the root
(which is that mesh), so "the target is not the root" fails. -/
theorem mesh_root_is_target :
    (∀ o ∈ preorder meshOnlyScene, isSkinnedMesh o = false) ∧
    (∀ o ∈ preorder meshOnlyScene, o.name ≠ "mixamorigHips") ∧
    (preorder meshOnlyScene).filter isPlainMesh = [meshOnlyScene] ∧
    ¬ (selectTarget meshOnlyScene ≠ meshOnlyScene) := by
  refine ⟨?_, ?_, ?_, ?_⟩
  · simp [meshOnlyScene, preorder, preorderChildren, isSkinnedMesh, Object3D.kind]
  · simp [meshOnlyScene, preorder, preorderChildren, Object3D.name]
  · simp [meshOnlyScene, preorder, preorderChildren, isPlainMesh, Object3D.kind, List.filter]
  · rw [selectTarget_eq]
    simp [meshOnlyScene, preorder, preorderChildren, isSkinnedMesh, isMesh, Object3D.kind,
      Object3D.name, List.find?]

/-- The name lookup takes the first node called `mixamorigHips` whatever its class: with a
group of that name, no bone of that name, no skinned mesh and one plain mesh, the group is
the target and the mesh is not. -/
theorem named_group_is_target :
    (∀ o ∈ preorder namedGroupScene, o.kind = Kind.bone → o.name ≠ "mixamorigHips") ∧
    selectTarget namedGroupScene = node Kind.group "mixamorigHips" [] := by
  refine ⟨?_, ?_⟩
  · simp [namedGroupScene, preorder, preorderChildren, Object3D.kind]
  · rw [selectTarget_eq]
    simp [namedGroupScene, preorder, preorderChildren, isSkinnedMesh, Object3D.kind,
      Object3D.name, List.find?]

/-- C4 (amended): target selection always yields a node of the graph and follows the
priority first skinned mesh in pre-order, else the first node named `mixamorigHips`, else the
first plain mesh in pre-order, else the root.  In particular a graph with no skinned mesh, no
node named `mixamorigHips` and exactly one plain mesh `m` selects `m`; that target is the
root exactly when the root is itself the plain mesh. -/
theorem selectTarget_priority (root : Object3D) :
    selectTarget root ∈ preorder root ∧
    (selectTarget root =
      match (preorder root).find? isSkinnedMesh with
      | some o => o
      | none =>
        match (preorder root).find? (fun x => x.name = "mixamorigHips") with
        | some o => o
        | none =>
          match (preorder root).find? isPlainMesh with
          | some o => o
          | none => root) ∧
    (∀ m : Object3D,
      (∀ o ∈ preorder root, isSkinnedMesh o = false) →
      (∀ o ∈ preorder root, o.name ≠ "mixamorigHips") →
      (preorder root).filter isPlainMesh = [m] →
      selectTarget root = m ∧ (selectTarget root = root ↔ isPlainMesh root = true)) := by
  have key : selectTarget root =
      match (preorder root).find? isSkinnedMesh with
      | some o => o
      | none =>
        match (preorder root).find? (fun x => x.name = "mixamorigHips") with
        | some o => o
        | none =>
          match (preorder root).find? isPlainMesh with
          | some o => o
          | none => root := by
    rw [selectTarget_eq]
    cases hs : List.find? isSkinnedMesh (preorder root) with
    | some o => rfl
    | none =>
      have hno : ∀ o ∈ preorder root, isSkinnedMesh o = false := by
        intro o ho
        have := List.find?_eq_none.mp hs o ho
        simpa using this
      simp only [find_isMesh_eq_plain _ hno]
  refine ⟨?_, key, ?_⟩
  · rw [key]
    cases hs : List.find? isSkinnedMesh (preorder root) with
    | some o => exact List.mem_of_find?_eq_some hs
    | none =>
      cases hn : List.find? (fun x => decide (x.name = "mixamorigHips")) (preorder root) with
      | some o => exact List.mem_of_find?_eq_some hn
      | none =>
        cases hp : List.find? isPlainMesh (preorder root) with
        | some o => exact List.mem_of_find?_eq_some hp
        | none => exact root_mem_preorder root
  · intro m hsk hnm hone
    have hs : List.find? isSkinnedMesh (preorder root) = none :=
      List.find?_eq_none.mpr (fun o ho => by simp [hsk o ho])
    have hn : List.find? (fun x => decide (x.name = "mixamorigHips")) (preorder root) = none :=
      List.find?_eq_none.mpr (fun o ho => by simpa using hnm o ho)
    have hp : List.find? isPlainMesh (preorder root) = some m := by
      rw [find_eq_head_filter, hone]; rfl
    have ht : selectTarget root = m := by rw [key, hs, hn, hp]
    have hm : isPlainMesh m = true := by
      have := List.find?_some hp
      simpa using this
    refine ⟨ht, ?_, ?_⟩
    · intro heq
      rw [ht] at heq
      rw [← heq]; exact hm
    · intro hroot
      rw [ht]
      have hpre : preorder root = root :: preorderChildren root.children := by
        cases root with
        | node k n cs => rw [preorder]; rfl
      rw [hpre, List.filter_cons_of_pos hroot] at hone
      exact (List.cons.inj hone).1.symm

/-- Instance of the amended C4 on `sampleScene`: the plain mesh `Body` is selected, and the
target is not the root, which is a group. -/
theorem selectTarget_priority_witness :
    selectTarget sampleScene = node Kind.mesh "Body" [] ∧ selectTarget sampleScene ≠ sampleScene :=
  have h := (selectTarget_priority sampleScene).2.2 (node Kind.mesh "Body" [])
    (by simp [sampleScene, preorder, preorderChildren, isSkinnedMesh, Object3D.kind])
    (by simp [sampleScene, preorder, preorderChildren, Object3D.name])
    (by simp [sampleScene, preorder, preorderChildren, isPlainMesh, Object3D.kind, List.filter])
  ⟨h.1, fun heq => absurd (h.2.mp heq)
    (by simp [sampleScene, isPlainMesh, Object3D.kind])⟩

/-! ## Claims on the patient store -/

/-- C10: `updatePatientField f v` makes `patientData` map `f` to `v` and leaves every other
field of the earlier record as it was; when `patientData` was `null` the result is exactly
the record `{f: v}`; `setPatientData d` replaces the whole record by `d`;
`clearPatientData` leaves `patientData = null`. -/
theorem store_actions {α : Type} (state : StoreState α) (f : String) (v : α)
    (d : Option (Record α)) :
    (∀ r0 : Record α, state.patientData = some r0 →
      ∃ r, (updatePatientField f v state).patientData = some r ∧ r.get f = some v ∧
        ∀ g, g ≠ f → r.get g = r0.get g) ∧
    (state.patientData = none → (updatePatientField f v state).patientData = some [(f, v)]) ∧
    (setPatientData d state).patientData = d ∧
    (clearPatientData state).patientData = none := by
  refine ⟨?_, ?_, rfl, rfl⟩
  · intro r0 h0
    refine ⟨r0.setKey f v, ?_, get_setKey_self r0 f v, fun g hg => get_setKey_other r0 f g v hg⟩
    simp [updatePatientField, h0, spread]
  · intro h
    simp [updatePatientField, h, spread, Record.setKey, Record.hasKey, Record.insertNew]

/-- Instance of C10: on the record `{a: 1, b: 2}`, updating `b` to `5` gives a record with
`b = 5` and `a = 1` still; on the initial store (`patientData = null`) updating `name`
gives exactly `{name: 1}`. -/
theorem store_actions_witness :
    (∃ r, (updatePatientField "b" 5 sampleStore).patientData = some r ∧
      r.get "b" = some 5 ∧ r.get "a" = some 1) ∧
    (updatePatientField "name" (1 : Nat) (usePatientStore Nat)).patientData
      = some [("name", 1)] :=
  ⟨((store_actions sampleStore "b" 5 none).1 [("a", 1), ("b", 2)] rfl).elim
      (fun r hr => ⟨r, hr.1, hr.2.1, (hr.2.2 "a" (by decide)).trans (by decide)⟩),
   (store_actions (usePatientStore Nat) "name" 1 none).2.1 rfl⟩

/-! ## Claims on the bounding-box guard -/

/-- C2: when the measured height `size.y` is zero or not finite (`NaN`, `+Infinity`,
`-Infinity`), the effect returns the root transform (scale and position) unchanged. -/
theorem normalize_degenerate_unchanged (root : RootTransform) (size center : Vector3)
    (h : isZero size.y = true ∨ isFinite size.y = false) :
    normalize root size center = root := by
  unfold normalize
  rcases h with h | h <;> simp [h]

/-- Instance of C2 at height `NaN`. -/
theorem normalize_degenerate_unchanged_witness :
    normalize ⟨⟨lit 1 1, lit 1 1, lit 1 1⟩, ⟨lit 0 1, lit 0 1, lit 0 1⟩⟩
        ⟨lit 1 1, JsNum.nan, lit 1 1⟩ ⟨lit 0 1, lit 0 1, lit 0 1⟩
      = ⟨⟨lit 1 1, lit 1 1, lit 1 1⟩, ⟨lit 0 1, lit 0 1, lit 0 1⟩⟩ :=
  normalize_degenerate_unchanged _ _ _ (Or.inr rfl)

/-! ## Claims on the overlay geometry -/

/-- C6: `cardPx` is `(leftP / 100 * width, topP / 100 * height)` and `centerPx` is
`(width / 2, height / 2)` for every rectangle and anchor; anchor (50, 8) on 400x800 gives
(200, 64), anchor (50, 50) gives (200, 400) on 400x800 and (400, 200) on 800x400. -/
theorem cardPx_centerPx_formula :
    (∀ (rect : Rect) (pos : Anchor),
      cardPx rect pos = ⟨mul (div pos.leftP (lit 100 1)) rect.width,
                         mul (div pos.topP (lit 100 1)) rect.height⟩ ∧
      centerPx rect = ⟨div rect.width (lit 2 1), div rect.height (lit 2 1)⟩) ∧
    cardPx (rectOfSize 400 800) ⟨"a", lit 50 1, lit 8 1⟩ = pt 200 64 ∧
    cardPx (rectOfSize 400 800) ⟨"a", lit 50 1, lit 50 1⟩ = pt 200 400 ∧
    cardPx (rectOfSize 800 400) ⟨"a", lit 50 1, lit 50 1⟩ = pt 400 200 := by
  refine ⟨fun rect pos => ⟨rfl, rfl⟩, ?_, ?_, ?_⟩ <;> decide

/-- C7: the connector starts at `centerPx`, ends at `cardPx pos`, and its control point is
the midpoint of the two lifted by 30: `((c.x + p.x) / 2, (c.y + p.y) / 2 - 30)`; two renders
with the same two endpoints draw the same path. -/
theorem connectorPath_shape (rect : Rect) (pos : Anchor) :
    (connectorPath rect pos).start = centerPx rect ∧
    (connectorPath rect pos).stop = cardPx rect pos ∧
    (connectorPath rect pos).control =
      ⟨div (add (centerPx rect).x (cardPx rect pos).x) (lit 2 1),
       sub (div (add (centerPx rect).y (cardPx rect pos).y) (lit 2 1)) (lit 30 1)⟩ ∧
    (∀ (rect2 : Rect) (pos2 : Anchor),
      centerPx rect2 = centerPx rect → cardPx rect2 pos2 = cardPx rect pos →
      connectorPath rect2 pos2 = connectorPath rect pos) := by
  refine ⟨rfl, rfl, rfl, ?_⟩
  intro rect2 pos2 hc hp
  unfold connectorPath
  rw [hc, hp]

/-- Instance of C7: moving the container (`left`, `top`) and renaming the anchor keeps both
endpoints, hence the path. -/
theorem connectorPath_shape_witness :
    connectorPath ⟨lit 400 1, lit 800 1, lit 10 1, lit 20 1⟩ ⟨"x", lit 50 1, lit 8 1⟩
      = connectorPath (rectOfSize 400 800) headAnchor :=
  (connectorPath_shape (rectOfSize 400 800) headAnchor).2.2.2 _ _ rfl rfl

/-- Counterexample to C8 as stated: on a 0x0 rectangle the control point of the head
connector is not `(0, 0)`; its `y` is `-30`. -/
theorem zero_rect_control_not_origin :
    ¬ ((connectorPath (rectOfSize 0 0) headAnchor).control = pt 0 0) ∧
    strictEq (connectorPath (rectOfSize 0 0) headAnchor).control.y (lit 0 1) = false ∧
    (connectorPath (rectOfSize 0 0) headAnchor).control.y = neg (lit 30 1) := by
  decide

/-- C8 (amended): for a rectangle with `width = 0` and `height = 0`, `centerPx` is `(0, 0)`
and, for each of the four configured anchors, the card pixel position and the start and end
points of the connector are `(0, 0)`, while the control point is `(0, -30)`. -/
theorem zero_rect_geometry (rect : Rect) (pos : Anchor)
    (hw : rect.width = lit 0 1) (hh : rect.height = lit 0 1) (hpos : pos ∈ cardPositions) :
    centerPx rect = pt 0 0 ∧ cardPx rect pos = pt 0 0 ∧
    (connectorPath rect pos).start = pt 0 0 ∧ (connectorPath rect pos).stop = pt 0 0 ∧
    (connectorPath rect pos).control = ⟨lit 0 1, neg (lit 30 1)⟩ := by
  obtain ⟨w, h, l, t⟩ := rect
  simp only at hw hh
  subst hw hh
  have hc : centerPx ⟨lit 0 1, lit 0 1, l, t⟩ = pt 0 0 := by
    show centerPx (rectOfSize 0 0) = pt 0 0
    decide
  have hp : cardPx ⟨lit 0 1, lit 0 1, l, t⟩ pos = pt 0 0 := by
    show cardPx (rectOfSize 0 0) pos = pt 0 0
    have hall : ∀ a ∈ cardPositions, cardPx (rectOfSize 0 0) a = pt 0 0 := by decide
    exact hall pos hpos
  refine ⟨hc, hp, ?_, ?_, ?_⟩
  · show centerPx _ = _
    exact hc
  · show cardPx _ _ = _
    exact hp
  · show (quadBetween (centerPx _) (cardPx _ _)).control = _
    rw [hc, hp]
    decide

/-- Instance of the amended C8 on the 0x0 rectangle at the origin and the head anchor. -/
theorem zero_rect_geometry_witness :
    centerPx (rectOfSize 0 0) = pt 0 0 ∧ cardPx (rectOfSize 0 0) headAnchor = pt 0 0 ∧
    (connectorPath (rectOfSize 0 0) headAnchor).start = pt 0 0 ∧
    (connectorPath (rectOfSize 0 0) headAnchor).stop = pt 0 0 ∧
    (connectorPath (rectOfSize 0 0) headAnchor).control = ⟨lit 0 1, neg (lit 30 1)⟩ :=
  zero_rect_geometry (rectOfSize 0 0) headAnchor rfl rfl (by decide)

/-- C9 at its failing input: for the head anchor (50, 8) on a 400x800 rectangle the connector
runs from (200, 400) to (200, 64) with control point (200, 202); the three points are
collinear, so the path is a straight vertical segment. -/
theorem head_connector_straight :
    connectorPath (rectOfSize 400 800) headAnchor = ⟨pt 200 400, pt 200 202, pt 200 64⟩ ∧
    Collinear (connectorPath (rectOfSize 400 800) headAnchor).start
      (connectorPath (rectOfSize 400 800) headAnchor).control
      (connectorPath (rectOfSize 400 800) headAnchor).stop := by
  have h : connectorPath (rectOfSize 400 800) headAnchor
      = ⟨pt 200 400, pt 200 202, pt 200 64⟩ := by decide
  refine ⟨h, ?_⟩
  rw [h]
  simp [Collinear, pt]

/-! ## Claims on scale and recentring -/

/-- C5 at its failing input: a bounding box of height `5e-324` passes the guard (it is finite
and not zero) and the quotient `1.9 / 5e-324` overflows, so the effect turns the finite
non-zero scale `(1, 1, 1)` into `(Infinity, Infinity, Infinity)`. -/
theorem tiny_height_writes_infinite_scale :
    isZero minSubnormal = false ∧ isFinite minSubnormal = true ∧
    (normalize identityTransform ⟨lit 1 1, minSubnormal, lit 1 1⟩
        ⟨lit 0 1, lit 0 1, lit 0 1⟩).scale
      = ⟨inf false, inf false, inf false⟩ := by
  decide

/-- Counterexample to C1 as stated: for the height `180` the applied scale is `1.9 / 180`
and `180 * scale` is `1.9000000000000001`, the double next above `1.9`. -/
theorem scaled_height_not_exact :
    (normalize identityTransform ⟨lit 1 1, lit 180 1, lit 1 1⟩
        ⟨lit 0 1, lit 0 1, lit 0 1⟩).scale = setScalar (div TARGET (lit 180 1)) ∧
    mul (lit 180 1) (normalize identityTransform ⟨lit 1 1, lit 180 1, lit 1 1⟩
        ⟨lit 0 1, lit 0 1, lit 0 1⟩).scale.y = fin false 8556839292003943 (-52) ∧
    TARGET = fin false 8556839292003942 (-52) ∧
    strictEq (mul (lit 180 1) (normalize identityTransform ⟨lit 1 1, lit 180 1, lit 1 1⟩
        ⟨lit 0 1, lit 0 1, lit 0 1⟩).scale.y) TARGET = false := by
  decide

/-- Counterexample to C3 as stated: for a box of height `1.8` centred at `(0, 0.9, 0)` the
sum `scale * c.y + position.y` is `-0.1000000000000002`, which is neither the number `-0.1`
nor the number `1.9 / 2 - 1.05`. -/
theorem recentred_height_not_exact :
    add (mul (normalize identityTransform ⟨lit 1 1, lit 18 10, lit 1 1⟩
          ⟨lit 0 1, lit 9 10, lit 0 1⟩).scale.y (lit 9 10))
        (normalize identityTransform ⟨lit 1 1, lit 18 10, lit 1 1⟩
          ⟨lit 0 1, lit 9 10, lit 0 1⟩).position.y
      = fin true 7205759403792808 (-56) ∧
    neg (lit 1 10) = fin true 7205759403792794 (-56) ∧
    sub (div TARGET (lit 2 1)) (lit 105 100) = fin true 7205759403792800 (-56) := by
  decide

/-! ## Scale and recentring: numeric facts -/

theorem TARGET_eq : TARGET = fin false 8556839292003942 (-52) := by decide

theorem toRat_TARGET : toRat TARGET = 4278419646001971 / 2251799813685248 := by
  rw [TARGET_eq, toRat_fin]
  norm_num [sg]

theorem isZero_of_isPos (a : JsNum) (h : isPos a = true) : isZero a = false := by
  cases a with
  | nan => simp [isPos] at h
  | inf s => simp [isPos] at h
  | fin s m e =>
    simp only [isPos, Bool.and_eq_true, decide_eq_true_eq] at h
    simp [isZero, h.2]

theorem eps_val : (2 : ℚ) ^ (-53 : ℤ) = 1 / 9007199254740992 := by norm_num

theorem delta_pos : (0 : ℚ) < (2 : ℚ) ^ (-1075 : ℤ) := zpow_pos (by norm_num) _

theorem delta_le : (2 : ℚ) ^ (-1075 : ℤ) ≤ 1 / 9007199254740992 := by
  rw [← eps_val]
  exact zpow_le_zpow_right₀ (by norm_num) (by norm_num)

theorem delta_scaled (h : ℚ) (hlt : h < (2 : ℚ) ^ (1024 : ℤ)) :
    h * (2 : ℚ) ^ (-1075 : ℤ) ≤ 1 / 2251799813685248 := by
  have h1 : (2 : ℚ) ^ (1024 : ℤ) * (2 : ℚ) ^ (-1075 : ℤ) = 1 / 2251799813685248 := by
    rw [← zpow_add₀ (two_ne_zero)]
    norm_num
  have := mul_le_mul_of_nonneg_right (le_of_lt hlt) (le_of_lt delta_pos)
  linarith

theorem big_val : (2 : ℚ) ≤ (2 : ℚ) ^ (1023 : ℤ) := by
  have := zpow_le_zpow_right₀ (by norm_num : (1 : ℚ) ≤ 2) (by norm_num : (1 : ℤ) ≤ 1023)
  simpa using this

/-- Error of the quotient `1.9 / h` for a positive normal `h`. -/
theorem scale_err (h : JsNum) (hfin : isFinite h = true) (hpos : isPos h = true)
    (hlo : (2 : ℚ) ^ (-1022 : ℤ) ≤ toRat h) :
    isFinite (div TARGET h) = true ∧
    |toRat (div TARGET h) - toRat TARGET / toRat h|
      ≤ toRat TARGET / toRat h * (2 : ℚ) ^ (-53 : ℤ) + (2 : ℚ) ^ (-1075 : ℤ) := by
  have hmin : (0 : ℚ) < (2 : ℚ) ^ (-1022 : ℤ) := zpow_pos (by norm_num) _
  have hh : 0 < toRat h := lt_of_lt_of_le hmin hlo
  have hTpos : (0 : ℚ) < toRat TARGET := by rw [toRat_TARGET]; norm_num
  have hT2 : toRat TARGET < 2 := by rw [toRat_TARGET]; norm_num
  have hq : 0 < toRat TARGET / toRat h := div_pos hTpos hh
  have hbig : (2 : ℚ) ^ (1023 : ℤ) * (2 : ℚ) ^ (-1022 : ℤ) = 2 := by
    rw [← zpow_add₀ (two_ne_zero)]; norm_num
  have hv : |toRat TARGET / toRat h| < (2 : ℚ) ^ (1023 : ℤ) := by
    rw [abs_of_pos hq, div_lt_iff₀ hh]
    have h1023 : (0 : ℚ) < (2 : ℚ) ^ (1023 : ℤ) := zpow_pos (by norm_num) _
    have := mul_le_mul_of_nonneg_left hlo (le_of_lt h1023)
    linarith
  have hTfin : isFinite TARGET = true := by rw [TARGET_eq]; rfl
  have := div_err TARGET h hTfin hfin (isZero_of_isPos h hpos) hv
  unfold ulpErr at this
  rw [abs_of_pos hq] at this
  exact this

/-- C1 (amended): for every finite height `h > 0` the effect sets all three scale components
to the double-precision quotient `1.9 / h`; and for every normal `h` (from `2^-1022` up to the
largest double) the double-precision product `h * scale` is finite and within `1e-6` of `1.9`. -/
theorem scale_is_quotient (root : RootTransform) (size center : Vector3)
    (hfin : isFinite size.y = true) (hpos : isPos size.y = true) :
    (normalize root size center).scale = setScalar (div TARGET size.y) ∧
    ((2 : ℚ) ^ (-1022 : ℤ) ≤ toRat size.y → toRat size.y < (2 : ℚ) ^ (1024 : ℤ) →
      isFinite (mul size.y (normalize root size center).scale.y) = true ∧
      |toRat (mul size.y (normalize root size center).scale.y) - 19 / 10| ≤ 1 / 1000000) := by
  have hz : isZero size.y = false := isZero_of_isPos _ hpos
  have hscale : (normalize root size center).scale = setScalar (div TARGET size.y) := by
    unfold normalize
    simp [hz, hfin]
  refine ⟨hscale, ?_⟩
  intro hlo hhi
  rw [hscale]
  show isFinite (mul size.y (div TARGET size.y)) = true ∧
    |toRat (mul size.y (div TARGET size.y)) - 19 / 10| ≤ 1 / 1000000
  obtain ⟨hsfin, hserr⟩ := scale_err size.y hfin hpos hlo
  have hmin : (0 : ℚ) < (2 : ℚ) ^ (-1022 : ℤ) := zpow_pos (by norm_num) _
  have hh : 0 < toRat size.y := lt_of_lt_of_le hmin hlo
  generalize hhdef : toRat size.y = h at *
  generalize hs : toRat (div TARGET size.y) = s at *
  rw [toRat_TARGET, eps_val] at hserr
  -- the exact product is close to `1.9`
  have hprod : |h * s - 4278419646001971 / 2251799813685248|
      ≤ 4278419646001971 / 2251799813685248 * (1 / 9007199254740992)
        + 1 / 2251799813685248 := by
    have he : h * s - 4278419646001971 / 2251799813685248
        = h * (s - 4278419646001971 / 2251799813685248 / h) := by
      field_simp
      ring
    rw [he, abs_mul, abs_of_pos hh]
    have h1 := mul_le_mul_of_nonneg_left hserr (le_of_lt hh)
    have h2 := delta_scaled h hhi
    have h3 : h * (4278419646001971 / 2251799813685248 / h * (1 / 9007199254740992)
        + (2 : ℚ) ^ (-1075 : ℤ))
        = 4278419646001971 / 2251799813685248 * (1 / 9007199254740992)
          + h * (2 : ℚ) ^ (-1075 : ℤ) := by
      rw [mul_add, ← mul_assoc, mul_div_cancel₀ _ (ne_of_gt hh)]
    rw [h3] at h1
    linarith
  have hprod2 := abs_le.mp hprod
  have hvabs : |h * s| ≤ 2 := by
    rw [abs_le]
    constructor <;> [linarith [hprod2.1]; linarith [hprod2.2]]
  have hv : |h * s| < (2 : ℚ) ^ (1023 : ℤ) := by
    have hb := big_val
    have : |h * s| < 2 := by
      rw [abs_lt]
      constructor <;> [linarith [hprod2.1]; linarith [hprod2.2]]
    linarith
  have hm := mul_err size.y (div TARGET size.y) hfin hsfin (by rw [hs, hhdef]; exact hv)
  rw [hs, hhdef] at hm
  refine ⟨hm.1, ?_⟩
  have hme := hm.2
  unfold ulpErr at hme
  rw [eps_val] at hme
  have hd := delta_le
  have hme2 := abs_le.mp hme
  have hb : |h * s| * (1 / 9007199254740992) ≤ 2 * (1 / 9007199254740992) :=
    mul_le_mul_of_nonneg_right hvabs (by norm_num)
  rw [abs_le]
  constructor
  · linarith [hme2.1, hprod2.1]
  · linarith [hme2.2, hprod2.2]

theorem toRat_lit_180 : toRat (lit 180 1) = 180 := by
  have e : lit 180 1 = fin false 6333186975989760 (-45) := by decide
  rw [e, toRat_fin]
  norm_num [sg]

theorem normal_range_180 :
    (2 : ℚ) ^ (-1022 : ℤ) ≤ toRat (lit 180 1) ∧ toRat (lit 180 1) < (2 : ℚ) ^ (1024 : ℤ) := by
  rw [toRat_lit_180]
  constructor
  · have := zpow_le_zpow_right₀ (by norm_num : (1 : ℚ) ≤ 2) (by norm_num : (-1022 : ℤ) ≤ 0)
    rw [zpow_zero] at this
    linarith
  · have := zpow_le_zpow_right₀ (by norm_num : (1 : ℚ) ≤ 2) (by norm_num : (8 : ℤ) ≤ 1024)
    have h8 : (2 : ℚ) ^ (8 : ℤ) = 256 := by norm_num
    linarith

/-- Instance of the amended C1 at height `180`: the scale is `1.9 / 180` on all three axes
and `180 * scale` is within `1e-6` of `1.9`. -/
theorem scale_is_quotient_witness :
    (normalize identityTransform ⟨lit 1 1, lit 180 1, lit 1 1⟩
        ⟨lit 0 1, lit 0 1, lit 0 1⟩).scale = setScalar (div TARGET (lit 180 1)) ∧
    |toRat (mul (lit 180 1) (normalize identityTransform ⟨lit 1 1, lit 180 1, lit 1 1⟩
        ⟨lit 0 1, lit 0 1, lit 0 1⟩).scale.y) - 19 / 10| ≤ 1 / 1000000 :=
  have h := scale_is_quotient identityTransform ⟨lit 1 1, lit 180 1, lit 1 1⟩
    ⟨lit 0 1, lit 0 1, lit 0 1⟩ (by decide) (by decide)
  ⟨h.1, (h.2 normal_range_180.1 normal_range_180.2).2⟩

theorem HALF_TARGET_eq : div TARGET (lit 2 1) = fin false 8556839292003942 (-53) := by decide

theorem OFFSET_eq : lit 105 100 = fin false 4728779608739021 (-52) := by decide

theorem toRat_HALF_TARGET :
    toRat (div TARGET (lit 2 1)) = 4278419646001971 / 4503599627370496 := by
  rw [HALF_TARGET_eq, toRat_fin]
  norm_num [sg]

theorem toRat_OFFSET : toRat (lit 105 100) = 4728779608739021 / 4503599627370496 := by
  rw [OFFSET_eq, toRat_fin]
  norm_num [sg]

theorem big_val24 : (16777216 : ℚ) ≤ (2 : ℚ) ^ (1023 : ℤ) := by
  have := zpow_le_zpow_right₀ (by norm_num : (1 : ℚ) ≤ 2) (by norm_num : (24 : ℤ) ≤ 1023)
  have h24 : (2 : ℚ) ^ (24 : ℤ) = 16777216 := by norm_num
  linarith

/-- One rounded operation whose exact result is at most `B` in size errs by at most
`(B + 1) * 2^-53`. -/
theorem ulpErr_le (v B : ℚ) (hB : |v| ≤ B) : ulpErr v ≤ (B + 1) / 9007199254740992 := by
  unfold ulpErr
  rw [eps_val]
  have := delta_le
  have h2 : |v| * (1 / 9007199254740992) ≤ B * (1 / 9007199254740992) :=
    mul_le_mul_of_nonneg_right hB (by norm_num)
  linarith

/-- The sum `scale * c + position` vanishes exactly on an axis where the position is
`-c * scale`, provided the product did not overflow. -/
theorem recentre_axis_zero (s c : JsNum) (hf : isFinite (mul s c) = true) :
    add (mul s c) (mul (neg c) s) = lit 0 1 := by
  rw [mul_neg_left, mul_swap c s, add_neg_same _ hf]
  decide

/-- The vertical coordinate of the recentred box centre is within `1e-6` of `-0.1`. -/
theorem recentre_height_err (h c : JsNum) (hfin : isFinite h = true) (hpos : isPos h = true)
    (hlo : (2 : ℚ) ^ (-1022 : ℤ) ≤ toRat h) (hhi : toRat h < (2 : ℚ) ^ (1024 : ℤ))
    (hcfin : isFinite c = true) (hcb : |toRat c| ≤ 1048576 * toRat h) :
    isFinite (add (mul (div TARGET h) c)
      (sub (add (mul (neg c) (div TARGET h)) (div TARGET (lit 2 1))) (lit 105 100))) = true ∧
    |toRat (add (mul (div TARGET h) c)
      (sub (add (mul (neg c) (div TARGET h)) (div TARGET (lit 2 1))) (lit 105 100)))
        - (-1 / 10)| ≤ 1 / 1000000 := by
  obtain ⟨hsfin, hserr⟩ := scale_err h hfin hpos hlo
  have hmin : (0 : ℚ) < (2 : ℚ) ^ (-1022 : ℤ) := zpow_pos (by norm_num) _
  have hh : 0 < toRat h := lt_of_lt_of_le hmin hlo
  have hbig := big_val24
  rw [toRat_TARGET, eps_val] at hserr
  -- size of `scale * h`
  have hsh : |toRat (div TARGET h)| * toRat h ≤ 3 := by
    have h1 : |toRat (div TARGET h)|
        ≤ |toRat (div TARGET h) - 4278419646001971 / 2251799813685248 / toRat h|
          + 4278419646001971 / 2251799813685248 / toRat h := by
      have hq : (0 : ℚ) ≤ 4278419646001971 / 2251799813685248 / toRat h := by positivity
      have := abs_add (toRat (div TARGET h) - 4278419646001971 / 2251799813685248 / toRat h)
        (4278419646001971 / 2251799813685248 / toRat h)
      rw [sub_add_cancel, abs_of_nonneg hq] at this
      exact this
    have h2 : |toRat (div TARGET h)|
        ≤ 4278419646001971 / 2251799813685248 / toRat h * (1 / 9007199254740992)
          + (2 : ℚ) ^ (-1075 : ℤ) + 4278419646001971 / 2251799813685248 / toRat h := by
      linarith
    have h3 := mul_le_mul_of_nonneg_right h2 (le_of_lt hh)
    have h4 : (4278419646001971 / 2251799813685248 / toRat h * (1 / 9007199254740992)
          + (2 : ℚ) ^ (-1075 : ℤ) + 4278419646001971 / 2251799813685248 / toRat h) * toRat h
        = 4278419646001971 / 2251799813685248 * (1 / 9007199254740992)
          + toRat h * (2 : ℚ) ^ (-1075 : ℤ) + 4278419646001971 / 2251799813685248 := by
      field_simp
      ring
    rw [h4] at h3
    have h5 := delta_scaled (toRat h) hhi
    linarith
  -- size of the exact product `scale * c`
  have hsc : |toRat (div TARGET h) * toRat c| ≤ 3145728 := by
    rw [abs_mul]
    have h1 : |toRat (div TARGET h)| * |toRat c|
        ≤ |toRat (div TARGET h)| * (1048576 * toRat h) :=
      mul_le_mul_of_nonneg_left hcb (abs_nonneg _)
    have h2 : |toRat (div TARGET h)| * (1048576 * toRat h)
        = 1048576 * (|toRat (div TARGET h)| * toRat h) := by ring
    linarith
  -- p = scale * c
  obtain ⟨hpfin, hperr⟩ := mul_err (div TARGET h) c hsfin hcfin (by linarith)
  have hperr2 := le_trans hperr (ulpErr_le _ _ hsc)
  have hp : |toRat (mul (div TARGET h) c)| ≤ 3145729 := by
    have := abs_le.mp hperr2
    have := abs_le.mp hsc
    rw [abs_le]
    constructor <;> linarith
  -- position.y = ((-p) + H) - L
  have hnp : mul (neg c) (div TARGET h) = neg (mul (div TARGET h) c) := by
    rw [mul_neg_left, mul_swap]
  rw [hnp]
  have hnpfin : isFinite (neg (mul (div TARGET h) c)) = true := by
    rw [isFinite_neg]; exact hpfin
  have hHfin : isFinite (div TARGET (lit 2 1)) = true := by rw [HALF_TARGET_eq]; rfl
  have hLfin : isFinite (lit 105 100) = true := by rw [OFFSET_eq]; rfl
  have hpb := abs_le.mp hp
  have hva : |toRat (neg (mul (div TARGET h) c)) + toRat (div TARGET (lit 2 1))| ≤ 3145730 := by
    rw [toRat_neg, toRat_HALF_TARGET, abs_le]
    constructor <;> linarith
  obtain ⟨hafin, haerr⟩ := add_err _ _ hnpfin hHfin (by linarith)
  have haerr2 := abs_le.mp (le_trans haerr (ulpErr_le _ _ hva))
  have hvab := abs_le.mp hva
  have hvb : |toRat (add (neg (mul (div TARGET h) c)) (div TARGET (lit 2 1)))
      - toRat (lit 105 100)| ≤ 3145733 := by
    rw [toRat_OFFSET, abs_le]
    constructor <;> linarith
  obtain ⟨hbfin, hberr⟩ := sub_err _ _ hafin hLfin (by linarith)
  have hberr2 := abs_le.mp (le_trans hberr (ulpErr_le _ _ hvb))
  rw [toRat_neg, toRat_HALF_TARGET] at haerr2
  rw [toRat_OFFSET] at hberr2
  have hvy : |toRat (mul (div TARGET h) c)
      + toRat (sub (add (neg (mul (div TARGET h) c)) (div TARGET (lit 2 1))) (lit 105 100))|
        ≤ 1 := by
    rw [abs_le]
    constructor <;> linarith
  obtain ⟨hyfin, hyerr⟩ := add_err _ _ hpfin hbfin (by linarith)
  have hyerr2 := abs_le.mp (le_trans hyerr (ulpErr_le _ _ hvy))
  refine ⟨hyfin, ?_⟩
  rw [abs_le]
  constructor <;> linarith

/-- C3 (amended): for a finite height `h > 0` the final root transform is scale
`1.9 / h` on all axes and position
`(-c.x * scale, -c.y * scale + 1.9 / 2 - 1.05, -c.z * scale)` computed with that same scale
(the assignment with offset `0.1` leaves no trace).  The scaled centre plus the position is
exactly `0` on X and on Z whenever the product `scale * c` is finite there, and on Y it is
within `1e-6` of `-0.1` for every normal `h` and finite `c.y` with `|c.y| ≤ 2^20 * h`. -/
theorem recentre_final_state (root : RootTransform) (size center : Vector3)
    (hfin : isFinite size.y = true) (hpos : isPos size.y = true) :
    normalize root size center =
      ⟨setScalar (div TARGET size.y),
       ⟨mul (neg center.x) (div TARGET size.y),
        sub (add (mul (neg center.y) (div TARGET size.y)) (div TARGET (lit 2 1))) (lit 105 100),
        mul (neg center.z) (div TARGET size.y)⟩⟩ ∧
    (isFinite (mul (normalize root size center).scale.x center.x) = true →
      add (mul (normalize root size center).scale.x center.x)
        (normalize root size center).position.x = lit 0 1) ∧
    (isFinite (mul (normalize root size center).scale.z center.z) = true →
      add (mul (normalize root size center).scale.z center.z)
        (normalize root size center).position.z = lit 0 1) ∧
    ((2 : ℚ) ^ (-1022 : ℤ) ≤ toRat size.y → toRat size.y < (2 : ℚ) ^ (1024 : ℤ) →
      isFinite center.y = true → |toRat center.y| ≤ 1048576 * toRat size.y →
      isFinite (add (mul (normalize root size center).scale.y center.y)
        (normalize root size center).position.y) = true ∧
      |toRat (add (mul (normalize root size center).scale.y center.y)
        (normalize root size center).position.y) - (-1 / 10)| ≤ 1 / 1000000) := by
  have hz : isZero size.y = false := isZero_of_isPos _ hpos
  have hN : normalize root size center =
      ⟨setScalar (div TARGET size.y),
       ⟨mul (neg center.x) (div TARGET size.y),
        sub (add (mul (neg center.y) (div TARGET size.y)) (div TARGET (lit 2 1))) (lit 105 100),
        mul (neg center.z) (div TARGET size.y)⟩⟩ := by
    unfold normalize
    simp [hz, hfin]
  refine ⟨hN, ?_, ?_, ?_⟩
  · rw [hN]
    exact fun hf => recentre_axis_zero _ _ hf
  · rw [hN]
    exact fun hf => recentre_axis_zero _ _ hf
  · rw [hN]
    intro hlo hhi hcfin hcb
    exact recentre_height_err size.y center.y hfin hpos hlo hhi hcfin hcb

theorem toRat_lit_18_10 : toRat (lit 18 10) = 8106479329266893 / 4503599627370496 := by
  have e : lit 18 10 = fin false 8106479329266893 (-52) := by decide
  rw [e, toRat_fin]
  norm_num [sg]

theorem toRat_lit_9_10 : toRat (lit 9 10) = 8106479329266893 / 9007199254740992 := by
  have e : lit 9 10 = fin false 8106479329266893 (-53) := by decide
  rw [e, toRat_fin]
  norm_num [sg]

theorem normal_range_18_10 :
    (2 : ℚ) ^ (-1022 : ℤ) ≤ toRat (lit 18 10) ∧ toRat (lit 18 10) < (2 : ℚ) ^ (1024 : ℤ) := by
  rw [toRat_lit_18_10]
  constructor
  · have := zpow_le_zpow_right₀ (by norm_num : (1 : ℚ) ≤ 2) (by norm_num : (-1022 : ℤ) ≤ 0)
    rw [zpow_zero] at this
    have h1 : (1 : ℚ) ≤ 8106479329266893 / 4503599627370496 := by norm_num
    linarith
  · have := zpow_le_zpow_right₀ (by norm_num : (1 : ℚ) ≤ 2) (by norm_num : (8 : ℤ) ≤ 1024)
    have h8 : (2 : ℚ) ^ (8 : ℤ) = 256 := by norm_num
    have h1 : (8106479329266893 / 4503599627370496 : ℚ) < 256 := by norm_num
    linarith

/-- Instance of the amended C3 for a box of height `1.8` centred at `(0, 0.9, 0)`: the
recentred centre is exactly `0` on X and within `1e-6` of `-0.1` on Y. -/
theorem recentre_final_state_witness :
    add (mul (normalize identityTransform ⟨lit 1 1, lit 18 10, lit 1 1⟩
          ⟨lit 0 1, lit 9 10, lit 0 1⟩).scale.x (lit 0 1))
        (normalize identityTransform ⟨lit 1 1, lit 18 10, lit 1 1⟩
          ⟨lit 0 1, lit 9 10, lit 0 1⟩).position.x = lit 0 1 ∧
    |toRat (add (mul (normalize identityTransform ⟨lit 1 1, lit 18 10, lit 1 1⟩
          ⟨lit 0 1, lit 9 10, lit 0 1⟩).scale.y (lit 9 10))
        (normalize identityTransform ⟨lit 1 1, lit 18 10, lit 1 1⟩
          ⟨lit 0 1, lit 9 10, lit 0 1⟩).position.y) - (-1 / 10)| ≤ 1 / 1000000 :=
  have h := recentre_final_state identityTransform ⟨lit 1 1, lit 18 10, lit 1 1⟩
    ⟨lit 0 1, lit 9 10, lit 0 1⟩ (by decide) (by decide)
  ⟨h.2.1 (by decide),
   (h.2.2.2 normal_range_18_10.1 normal_range_18_10.2 (by decide)
     (by rw [toRat_lit_9_10, toRat_lit_18_10]; norm_num [abs_of_pos])).2⟩

end MediChain
